import Mathlib

/-!
# mira `rocksdb_iterator`: cursor positioning, comparison, dereference, copy and move

Shallow embedding of `libraries/mira/include/mira/detail/rocksdb_iterator.hpp`.

* A column family of the store is a list of key/value byte strings, kept in
  ascending key order by the bytewise comparator (`Sorted`).
* `RawIter` is the `::rocksdb::Iterator` the cursor owns: the column it was
  opened on and a position.  Its operations follow the documented contract
  of the RocksDB iterator (`Seek`, `SeekForPrev`, `SeekToFirst`, `Next`,
  `Prev`, `Valid`, `key`, `value`).
* `assert` / `BOOST_ASSERT` are modelled as enabled: a tripped assertion is
  a `Fault`.
* The byte codec (`fc::raw`) and the object cache are collaborators whose
  code is not part of the header; they are parameters (`Codec`, `Cache`).
* `_iter` is a `std::unique_ptr`: a cursor holds its `RawIter` by value, and
  an operation that changes a cursor returns the cursor afterwards.
* `cursor_object` is the same cursor with `_iter` as an address into the
  memory of allocated iterators (`IterHeap`); the copy constructor and the
  stepping operators are given on it as well, for the statements about which
  iterator a step moves.
-/

namespace mira

/-- Byte strings (`::rocksdb::Slice`, `std::vector< char >`), bytes read as unsigned. -/
abbrev Bytes := List Nat

/-- One column family: its entries in iteration order. -/
abbrev Column := List (Bytes × Bytes)

/-- The constant `ID_INDEX` of the header (`#define ID_INDEX 1`). -/
def ID_INDEX : Nat := 1

/-- C `memcmp( a, b, n )`: sign of the first difference among the first `n` bytes.
The callers never ask for more bytes than both buffers hold. -/
def memcmp : Bytes → Bytes → Nat → Int
  | _, _, 0 => 0
  | x :: xs, y :: ys, n + 1 =>
    if x < y then -1 else if y < x then 1 else memcmp xs ys n
  | _, _, _ + 1 => 0

/-- Strict order of the bytewise comparator: lexicographic on the bytes, a
string sorting after each of its proper initial segments. -/
def bytesLt : Bytes → Bytes → Bool
  | [], [] => false
  | [], _ :: _ => true
  | _ :: _, [] => false
  | x :: xs, y :: ys => decide (x < y) || (decide (x = y) && bytesLt xs ys)

/-- Non-strict order of the bytewise comparator. -/
def bytesLe (a b : Bytes) : Bool := !bytesLt b a

/-- A column is stored in strictly ascending key order. -/
def Sorted (col : Column) : Prop :=
  col.Pairwise (fun a b => bytesLt a.1 b.1 = true)

instance (col : Column) : Decidable (Sorted col) := by
  unfold Sorted; infer_instance

/-- The keys stored in a column. -/
def keysOf (col : Column) : List Bytes := col.map Prod.fst

/-- The raw store position owned by a cursor (`::rocksdb::Iterator`). -/
structure RawIter where
  /-- the column family the iterator was opened on -/
  entries : Column
  /-- index of the current entry, `none` when the iterator is not positioned -/
  pos : Option Nat
deriving DecidableEq, Repr

namespace RawIter

/-- The entry under the iterator, if it is positioned on one. -/
def entry? (it : RawIter) : Option (Bytes × Bytes) :=
  match it.pos with
  | some i => it.entries.get? i
  | none => none

/-- `Iterator::Valid()`. -/
def Valid (it : RawIter) : Bool := it.entry?.isSome

/-- `Iterator::key()` (requires `Valid()`). -/
def key (it : RawIter) : Bytes :=
  match it.entry? with
  | some e => e.1
  | none => []

/-- `Iterator::value()` (requires `Valid()`). -/
def value (it : RawIter) : Bytes :=
  match it.entry? with
  | some e => e.2
  | none => []

/-- `Iterator::Seek( target )`: first entry whose key is at or past `target`. -/
def Seek (it : RawIter) (target : Bytes) : RawIter :=
  let n := (it.entries.takeWhile (fun e => bytesLt e.1 target)).length
  { it with pos := if n < it.entries.length then some n else none }

/-- `Iterator::SeekForPrev( target )`: last entry whose key is at or before `target`. -/
def SeekForPrev (it : RawIter) (target : Bytes) : RawIter :=
  let n := (it.entries.takeWhile (fun e => bytesLe e.1 target)).length
  { it with pos := if n = 0 then none else some (n - 1) }

/-- `Iterator::SeekToFirst()`. -/
def SeekToFirst (it : RawIter) : RawIter :=
  { it with pos := if it.entries.isEmpty then none else some 0 }

/-- `Iterator::Next()`: the following entry; not positioned after the last one. -/
def Next (it : RawIter) : RawIter :=
  match it.pos with
  | some i => { it with pos := if i + 1 < it.entries.length then some (i + 1) else none }
  | none => it

/-- `Iterator::Prev()`: the preceding entry; not positioned before the first one. -/
def Prev (it : RawIter) : RawIter :=
  match it.pos with
  | some (i + 1) => { it with pos := some i }
  | _ => { it with pos := none }

end RawIter

/-- The store handle `_db`: the contents of each column family. -/
abbrev DB := Nat → Column

/-- The table `_handles`: column family behind each index. -/
abbrev column_handles := Nat → Nat

/-- `DB::NewIterator( opts, handle )`: a fresh iterator, not positioned. -/
def NewIterator (db : DB) (handle : Nat) : RawIter :=
  { entries := db handle, pos := none }

/-- `DB::Get( opts, handle, key, &value )`: point lookup; `none` is a status that is not `ok`. -/
def Get (db : DB) (handle : Nat) (key : Bytes) : Option Bytes :=
  ((db handle).find? (fun e => decide (e.1 = key))).map Prod.snd

/-- The cursor `rocksdb_iterator` with its data members. -/
structure rocksdb_iterator where
  /-- `_handles` -/
  handles : column_handles
  /-- `_index` -/
  index : Nat
  /-- `_iter` -/
  iter : RawIter
  /-- `_snapshot` (never acquired: the code that would is commented out) -/
  snapshot : Option Nat
  /-- `_db` -/
  db : DB
  /-- `_cache`: which cache object the cursor refers to -/
  cache : Nat

/-- What stops an operation: a tripped assertion or a byte string the codec rejects. -/
inductive Fault where
  /-- `BOOST_ASSERT( valid() )` in `operator*` -/
  | assert_valid
  /-- `assert( s.ok() )` after the point lookup in `operator*` -/
  | assert_get_ok
  /-- `assert( this_key.size() == other_key.size() )` in `equals` -/
  | assert_same_size
  /-- `fc::raw::unpack_from_char_array` threw -/
  | unpack_failed
  /-- the iteration bound of `visit` was reached -/
  | out_of_fuel
deriving DecidableEq, Repr

/-- The byte codec `fc::raw` and the identity extractor `IDFromValue`. -/
structure Codec (Key ID Value : Type) where
  /-- `fc::raw::pack_to_vector( k )` -/
  pack : Key → Bytes
  /-- `fc::raw::unpack_from_char_array< ID >` -/
  unpack_id : Bytes → Option ID
  /-- `fc::raw::unpack_from_char_array< Value >` -/
  unpack_value : Bytes → Option Value
  /-- `IDFromValue` -/
  get_id : Value → ID

/-- The interface of `object_cache` the cursor consumes; `State` is what the cache holds. -/
structure Cache (ID Value Handle State : Type) where
  /-- `_cache.get( id )`: the shared pointer, `none` when it is null -/
  get : State → ID → Option Handle
  /-- `_cache.cache( std::move( value ) )`: the canonical shared pointer -/
  cache : State → Value → State × Handle

/-- The cache contract: once a record is cached, `get` on its identity returns
the handle `cache` handed back. -/
def Cache.Contract {ID Value Handle State : Type} (codec_id : Value → ID)
    (ch : Cache ID Value Handle State) : Prop :=
  ∀ s v, ch.get (ch.cache s v).1 (codec_id v) = some (ch.cache s v).2

/-- The bytes of a stored record parse to the identity of the record they decode to. -/
def Codec.Coherent {Key ID Value : Type} (codec : Codec Key ID Value) : Prop :=
  ∀ b i v, codec.unpack_id b = some i → codec.unpack_value b = some v → codec.get_id v = i

/-- Both decoders accept the byte string. -/
def Codec.Decodes {Key ID Value : Type} (codec : Codec Key ID Value) (b : Bytes) : Prop :=
  (codec.unpack_id b).isSome = true ∧ (codec.unpack_value b).isSome = true

instance {Key ID Value : Type} (codec : Codec Key ID Value) (b : Bytes) :
    Decidable (codec.Decodes b) := by
  unfold Codec.Decodes; infer_instance

/-- A read the cursor issues against the store besides moving its own iterator. -/
inductive StoreOp where
  /-- `_db->Get( _opts, handle, key, ... )` -/
  | get (handle : Nat) (key : Bytes)
deriving DecidableEq, Repr

namespace rocksdb_iterator

/-- Constructor `rocksdb_iterator( handles, index, db, cache )`. -/
def mk_plain (handles : column_handles) (index : Nat) (db : DB) (cache : Nat) :
    rocksdb_iterator :=
  { handles := handles, index := index, iter := NewIterator db (handles index),
    snapshot := none, db := db, cache := cache }

/-- Member `valid()`. -/
def valid (c : rocksdb_iterator) : Bool := c.iter.Valid

/-- Static `begin`. -/
def begin (handles : column_handles) (index : Nat) (db : DB) (cache : Nat) :
    rocksdb_iterator :=
  let itr := mk_plain handles index db cache
  { itr with iter := itr.iter.SeekToFirst }

/-- Static `end`. -/
def end_ (handles : column_handles) (index : Nat) (db : DB) (cache : Nat) :
    rocksdb_iterator :=
  mk_plain handles index db cache

/-- Static `find`. -/
def find {Key ID Value : Type} (codec : Codec Key ID Value)
    (handles : column_handles) (index : Nat) (db : DB) (cache : Nat) (k : Key) :
    rocksdb_iterator :=
  let itr := mk_plain handles index db cache
  let ser_key := codec.pack k
  let itr := { itr with iter := itr.iter.Seek ser_key }
  if itr.valid then
    let found_key := itr.iter.key
    if memcmp ser_key found_key (min ser_key.length found_key.length) ≠ 0 then
      { itr with iter := NewIterator itr.db (itr.handles itr.index) }
    else itr
  else
    { itr with iter := NewIterator itr.db (itr.handles itr.index) }

/-- Static `lower_bound`. -/
def lower_bound {Key ID Value : Type} (codec : Codec Key ID Value)
    (handles : column_handles) (index : Nat) (db : DB) (cache : Nat) (k : Key) :
    rocksdb_iterator :=
  let itr := mk_plain handles index db cache
  let ser_key := codec.pack k
  { itr with iter := itr.iter.Seek ser_key }

/-- Static `upper_bound`. -/
def upper_bound {Key ID Value : Type} (codec : Codec Key ID Value)
    (handles : column_handles) (index : Nat) (db : DB) (cache : Nat) (k : Key) :
    rocksdb_iterator :=
  let itr := mk_plain handles index db cache
  let ser_key := codec.pack k
  let itr := { itr with iter := itr.iter.SeekForPrev ser_key }
  if itr.valid then { itr with iter := itr.iter.Next } else itr

/-- Static `range`. -/
def range {Key ID Value : Type} (codec : Codec Key ID Value)
    (handles : column_handles) (index : Nat) (db : DB) (cache : Nat) (lower upper : Key) :
    rocksdb_iterator × rocksdb_iterator :=
  (lower_bound codec handles index db cache lower,
   upper_bound codec handles index db cache upper)

/-- Member `equals`. -/
def equals (c other : rocksdb_iterator) : Except Fault Bool :=
  if c.iter.Valid && other.iter.Valid then
    let this_key := c.iter.key
    let other_key := other.iter.key
    if this_key.length ≠ other_key.length then .error Fault.assert_same_size
    else .ok (decide (memcmp this_key other_key this_key.length = 0))
  else
    .ok (c.iter.Valid == other.iter.Valid)

/-- Free `operator==`. -/
def operator_eq (x y : rocksdb_iterator) : Except Fault Bool := x.equals y

/-- Free `operator!=`. -/
def operator_ne (x y : rocksdb_iterator) : Except Fault Bool :=
  (operator_eq x y).map (fun b => !b)

/-- Member `operator++()`. -/
def operator_inc (c : rocksdb_iterator) : rocksdb_iterator :=
  { c with iter := c.iter.Next }

/-- Member `operator--()`. -/
def operator_dec (c : rocksdb_iterator) : rocksdb_iterator :=
  { c with iter := c.iter.Prev }

/-- What `operator*` leaves behind: the cursor, the store reads it issued, and
either a fault or the shared pointer together with the cache afterwards. -/
structure Deref (Handle State : Type) where
  /-- the cursor after the call -/
  cursor : rocksdb_iterator
  /-- point lookups issued, in order -/
  ops : List StoreOp
  /-- the pointer returned and the cache afterwards, or the fault -/
  result : Except Fault (Handle × State)

/-- Member `operator*`, on the cache state `s` of the cache the cursor refers to. -/
def operator_star {Key ID Value Handle State : Type} (codec : Codec Key ID Value)
    (ch : Cache ID Value Handle State) (c : rocksdb_iterator) (s : State) :
    Deref Handle State :=
  if !c.valid then { cursor := c, ops := [], result := .error Fault.assert_valid }
  else
    let key_slice := c.iter.value
    if c.index = ID_INDEX then
      match codec.unpack_id key_slice with
      | none => { cursor := c, ops := [], result := .error Fault.unpack_failed }
      | some id =>
        match ch.get s id with
        | some ptr => { cursor := c, ops := [], result := .ok (ptr, s) }
        | none =>
          match codec.unpack_value key_slice with
          | none => { cursor := c, ops := [], result := .error Fault.unpack_failed }
          | some v =>
            let r := ch.cache s v
            { cursor := c, ops := [], result := .ok (r.2, r.1) }
    else
      let ops := [StoreOp.get (c.handles ID_INDEX) key_slice]
      match Get c.db (c.handles ID_INDEX) key_slice with
      | none => { cursor := c, ops := ops, result := .error Fault.assert_get_ok }
      | some value_slice =>
        match codec.unpack_id value_slice with
        | none => { cursor := c, ops := ops, result := .error Fault.unpack_failed }
        | some id =>
          match ch.get s id with
          | some ptr => { cursor := c, ops := ops, result := .ok (ptr, s) }
          | none =>
            match codec.unpack_value value_slice with
            | none => { cursor := c, ops := ops, result := .error Fault.unpack_failed }
            | some v =>
              let r := ch.cache s v
              { cursor := c, ops := ops, result := .ok (r.2, r.1) }

/-- The caller's loop `for( ; !( first == last ); ++first ) visit( first key )`:
the keys visited, at most `fuel` of them. -/
def visit : Nat → rocksdb_iterator → rocksdb_iterator → Except Fault (List Bytes)
  | 0, _, _ => .error Fault.out_of_fuel
  | fuel + 1, first, last =>
    match operator_eq first last with
    | .error f => .error f
    | .ok true => .ok []
    | .ok false =>
      match visit fuel first.operator_inc last with
      | .error f => .error f
      | .ok ks => .ok (first.iter.key :: ks)

/-- Copy constructor `rocksdb_iterator( const rocksdb_iterator& other )`: a fresh
iterator over `_handles[ _index ]`, sought to the key of `other` when `other` is
valid. -/
def copy (other : rocksdb_iterator) : rocksdb_iterator :=
  let it := NewIterator other.db (other.handles other.index)
  { handles := other.handles, index := other.index,
    iter := if other.iter.Valid then it.Seek other.iter.key else it,
    snapshot := other.snapshot, db := other.db, cache := other.cache }

/-- Member `operator++(int) const`: the receiver after the call and the cursor
returned.  `new_itr` is a copy of the receiver; `return ++new_itr;` copies the
stepped `new_itr` into the return value. -/
def operator_post_inc (c : rocksdb_iterator) : rocksdb_iterator × rocksdb_iterator :=
  let new_itr := copy c
  (c, copy new_itr.operator_inc)

/-- Member `operator--(int) const`: the receiver after the call and the cursor
returned. -/
def operator_post_dec (c : rocksdb_iterator) : rocksdb_iterator × rocksdb_iterator :=
  let new_itr := copy c
  (c, copy new_itr.operator_dec)

/-- Move assignment `operator=( rocksdb_iterator&& other )`: the receiver after
the call.  Only `_iter`, `_snapshot` and `_db` are assigned. -/
def move_assign (c other : rocksdb_iterator) : rocksdb_iterator :=
  { c with iter := other.iter, snapshot := other.snapshot, db := other.db }

/-- A cursor whose iterator is over the column space of its own index, as every
cursor built by the constructors is. -/
def OwnColumn (c : rocksdb_iterator) : Prop :=
  c.iter.entries = c.db (c.handles c.index)

instance (c : rocksdb_iterator) : Decidable (OwnColumn c) := by
  unfold OwnColumn; infer_instance

end rocksdb_iterator

/-- The `::rocksdb::Iterator` objects allocated so far, by address: `NewIterator`
returns the next free address.  Addresses are not reused. -/
abbrev IterHeap := List RawIter

/-- A `rocksdb_iterator` object as it lies in memory: its data members, `_iter`
being the address of the iterator the `std::unique_ptr` owns. -/
structure cursor_object where
  /-- `_handles` -/
  handles : column_handles
  /-- `_index` -/
  index : Nat
  /-- `_iter.get()` -/
  iter_ptr : Nat
  /-- `_snapshot` -/
  snapshot : Option Nat
  /-- `_db` -/
  db : DB
  /-- `_cache` -/
  cache : Nat

namespace cursor_object

/-- The cursor an object denotes: its members, with `*_iter` read from memory;
`none` when `_iter` points at no iterator. -/
def load (heap : IterHeap) (o : cursor_object) : Option rocksdb_iterator :=
  (heap.get? o.iter_ptr).map fun it =>
    { handles := o.handles, index := o.index, iter := it,
      snapshot := o.snapshot, db := o.db, cache := o.cache }

/-- Copy constructor, in memory: `_iter.reset( _db->NewIterator( ... ) )` allocates
a new iterator, sought to the key of `other` when `other` is valid; the other
members are copied from `other`.  The memory afterwards and the new object. -/
def copy (heap : IterHeap) (other : cursor_object) : Option (IterHeap × cursor_object) :=
  (other.load heap).map fun ov =>
    (heap ++ [(rocksdb_iterator.copy ov).iter], { other with iter_ptr := heap.length })

/-- Member `operator++()`, in memory: `_iter->Next()` moves the iterator the
cursor owns.  The memory afterwards. -/
def operator_inc (heap : IterHeap) (o : cursor_object) : Option IterHeap :=
  (heap.get? o.iter_ptr).map fun it => heap.set o.iter_ptr it.Next

/-- Member `operator--()`, in memory: `_iter->Prev()` moves the iterator the
cursor owns.  The memory afterwards. -/
def operator_dec (heap : IterHeap) (o : cursor_object) : Option IterHeap :=
  (heap.get? o.iter_ptr).map fun it => heap.set o.iter_ptr it.Prev

/-- Member `operator++(int) const`, in memory: `new_itr` is copy-constructed from
the receiver and stepped, and the value returned is copy-constructed from it.
The memory afterwards and the object returned. -/
def operator_post_inc (heap : IterHeap) (o : cursor_object) :
    Option (IterHeap × cursor_object) :=
  match copy heap o with
  | none => none
  | some (h1, new_itr) =>
    match operator_inc h1 new_itr with
    | none => none
    | some h2 => copy h2 new_itr

/-- Member `operator--(int) const`, in memory.  The memory afterwards and the
object returned. -/
def operator_post_dec (heap : IterHeap) (o : cursor_object) :
    Option (IterHeap × cursor_object) :=
  match copy heap o with
  | none => none
  | some (h1, new_itr) =>
    match operator_dec h1 new_itr with
    | none => none
    | some h2 => copy h2 new_itr

end cursor_object

/-- Resolution of a serialized record as the specification words it (step 1 of
the dereference protocol): parse the identity, ask the cache, on a miss decode
and insert, and use the handle the cache hands back. -/
def resolve {Key ID Value Handle State : Type} (codec : Codec Key ID Value)
    (ch : Cache ID Value Handle State) (record_bytes : Bytes) (s : State) :
    Except Fault (Handle × State) :=
  match codec.unpack_id record_bytes with
  | none => .error Fault.unpack_failed
  | some id =>
    match ch.get s id with
    | some h => .ok (h, s)
    | none =>
      match codec.unpack_value record_bytes with
      | none => .error Fault.unpack_failed
      | some v => .ok ((ch.cache s v).2, (ch.cache s v).1)

/-! ## A small store on which the code is run -/

/-- A codec whose keys are their own serialization; a record is its bytes and
its identity is the leading byte. -/
def rawCodec : Codec Bytes Nat Bytes where
  pack := fun k => k
  unpack_id := fun b => b.head?
  unpack_value := fun b => if b.isEmpty then none else some b
  get_id := fun v => v.headD 0

/-- A cache kept as an association list from identity to handle; a record of an
identity not yet present gets the next free handle. -/
def listCache : Cache Nat Bytes Nat (List (Nat × Nat)) where
  get := fun s id => s.lookup id
  cache := fun s v =>
    match s.lookup (v.headD 0) with
    | some h => (s, h)
    | none => ((v.headD 0, s.length) :: s, s.length)

/-- Column handles in index order. -/
def sampleHandles : column_handles := fun i => i

/-- A store with the records in column family 1, two secondary indices over
them (0 and 2), and two further column families with keys of mixed length. -/
def sampleDB : DB
  | 0 => [([4], [1])]
  | 1 => [([1], [1, 100]), ([2], [2, 200]), ([3], [3, 44])]
  | 2 => [([5], [2]), ([6], [1]), ([9], [3])]
  | 3 => [([1], [1]), ([1, 2], [2])]
  | 4 => [([1, 2], [2]), ([5], [1])]
  | _ => []

/-- A memory holding one iterator, over column family 2 of the sample store and
positioned on its second entry, the key `[6]`. -/
def sampleHeap : IterHeap := [{ entries := sampleDB 2, pos := some 1 }]

/-- The cursor object of index 2 that owns the iterator at address 0. -/
def sampleObject : cursor_object :=
  { handles := sampleHandles, index := 2, iter_ptr := 0, snapshot := none,
    db := sampleDB, cache := 0 }

end mira

namespace mira

/-! ## Order and comparison facts -/

theorem bytesLt_irrefl (a : Bytes) : bytesLt a a = false := by
  induction a with
  | nil => rfl
  | cons x xs ih => simp [bytesLt, ih]

theorem bytesLt_asymm : ∀ (a b : Bytes), bytesLt a b = true → bytesLt b a = false
  | [], [], h => by simp [bytesLt] at h
  | [], _ :: _, _ => by simp [bytesLt]
  | _ :: _, [], h => by simp [bytesLt] at h
  | x :: xs, y :: ys, h => by
    simp only [bytesLt, Bool.or_eq_true, Bool.and_eq_true, decide_eq_true_eq] at h
    rcases h with h | ⟨h1, h2⟩
    · have h3 : ¬ y < x := by omega
      have h4 : ¬ y = x := by omega
      simp [bytesLt, h3, h4]
    · subst h1
      simp [bytesLt, bytesLt_asymm xs ys h2]

theorem bytesLe_refl (a : Bytes) : bytesLe a a = true := by
  simp [bytesLe, bytesLt_irrefl]

theorem bytesLe_of_lt {a b : Bytes} (h : bytesLt a b = true) : bytesLe a b = true := by
  simp [bytesLe, bytesLt_asymm a b h]

theorem memcmp_self (a : Bytes) : ∀ n, memcmp a a n = 0 := by
  induction a with
  | nil => intro n; cases n <;> rfl
  | cons x xs ih =>
    intro n
    cases n with
    | zero => rfl
    | succ n => simp [memcmp, ih]

theorem memcmp_eq_zero_iff : ∀ (a b : Bytes), a.length = b.length →
    (memcmp a b a.length = 0 ↔ a = b)
  | [], [], _ => by simp [memcmp]
  | [], _ :: _, h => by simp at h
  | _ :: _, [], h => by simp at h
  | x :: xs, y :: ys, h => by
    have hl : xs.length = ys.length := by simpa using h
    have ih := memcmp_eq_zero_iff xs ys hl
    simp only [List.length_cons, memcmp, List.cons.injEq]
    by_cases h1 : x < y
    · simp [h1]; omega
    · by_cases h2 : y < x
      · simp [h1, h2]; omega
      · have : x = y := by omega
        simp [h1, h2, this, ih]

/-! ## The raw iterator -/

theorem get?_takeWhile_length {α : Type} (p : α → Bool) (l : List α) :
    l.get? (l.takeWhile p).length = (l.dropWhile p).head? := by
  induction l with
  | nil => rfl
  | cons x xs ih =>
    by_cases h : p x = true
    · simp [List.takeWhile, List.dropWhile, h] at ih ⊢
      exact ih
    · simp [List.takeWhile, List.dropWhile, h]

theorem RawIter.entry?_Seek (it : RawIter) (t : Bytes) :
    (it.Seek t).entry? = (it.entries.dropWhile (fun e => bytesLt e.1 t)).head? := by
  unfold RawIter.Seek RawIter.entry?
  simp only
  split_ifs with h
  · exact get?_takeWhile_length _ _
  · rw [← get?_takeWhile_length]
    symm
    exact List.get?_eq_none.mpr (by omega)

theorem RawIter.pos_Seek_of_invalid (it : RawIter) (t : Bytes)
    (h : (it.Seek t).Valid = false) : (it.Seek t).pos = none := by
  unfold RawIter.Valid RawIter.entry? at h
  unfold RawIter.Seek at h ⊢
  simp only at h ⊢
  split_ifs at h ⊢ with hn
  · simp only [List.get?_eq_get hn] at h
    simp at h
  · rfl

end mira

namespace mira

/-! ## Where `Seek` lands in a sorted column -/

theorem head?_dropWhile_least (t : Bytes) :
    ∀ (col : Column), Sorted col → ∀ e,
      (col.dropWhile (fun x => bytesLt x.1 t)).head? = some e →
      e ∈ col ∧ bytesLe t e.1 = true ∧
        ∀ e2 ∈ col, bytesLe t e2.1 = true → bytesLe e.1 e2.1 = true
  | [], _, e, h => by simp at h
  | x :: xs, hs, e, h => by
    have hs2 : (∀ b ∈ xs, bytesLt x.1 b.1 = true) ∧ Sorted xs := by
      simpa [Sorted] using hs
    by_cases hx : bytesLt x.1 t = true
    · have h2 : (xs.dropWhile (fun x => bytesLt x.1 t)).head? = some e := by
        simpa [List.dropWhile, hx] using h
      obtain ⟨h3, h4, h5⟩ := head?_dropWhile_least t xs hs2.2 e h2
      refine ⟨List.mem_cons_of_mem _ h3, h4, ?_⟩
      intro e2 he2 hle
      rcases List.mem_cons.mp he2 with rfl | hm
      · simp [bytesLe, hx] at hle
      · exact h5 e2 hm hle
    · have h2 : x = e := by simpa [List.dropWhile, hx] using h
      subst h2
      refine ⟨List.mem_cons_self _ _, by simpa [bytesLe] using hx, ?_⟩
      intro e2 he2 _
      rcases List.mem_cons.mp he2 with rfl | hm
      · exact bytesLe_refl _
      · exact bytesLe_of_lt (hs2.1 e2 hm)

theorem head?_dropWhile_none (t : Bytes) :
    ∀ (col : Column),
      (col.dropWhile (fun x => bytesLt x.1 t)).head? = none ↔
        ∀ e ∈ col, bytesLt e.1 t = true
  | [] => by simp
  | x :: xs => by
    by_cases hx : bytesLt x.1 t = true
    · simp [List.dropWhile, hx, head?_dropWhile_none t xs]
    · simp [List.dropWhile, hx]

theorem RawIter.key_of_entry? {it : RawIter} {e : Bytes × Bytes}
    (h : it.entry? = some e) : it.key = e.1 := by
  simp [RawIter.key, h]

theorem RawIter.value_of_entry? {it : RawIter} {e : Bytes × Bytes}
    (h : it.entry? = some e) : it.value = e.2 := by
  simp [RawIter.value, h]

theorem RawIter.Valid_of_entry? {it : RawIter} {e : Bytes × Bytes}
    (h : it.entry? = some e) : it.Valid = true := by
  simp [RawIter.Valid, h]

end mira

namespace mira

open rocksdb_iterator

/-! ## Positioning: `find`, `lower_bound`, `upper_bound`, `range` -/

/-- C1, evaluated on the code: column family 4 holds the keys `[1, 2]` and `[5]`,
so the key serialized as `[1]` is absent; `find` seeks to `[1, 2]`, compares only
the first `min( 1, 2 ) = 1` bytes, and returns the valid cursor at `[1, 2]`, which
does not compare equal to `end`. -/
theorem find_absent_key_lands_on_longer_key :
    [1] ∉ keysOf (sampleDB (sampleHandles 4)) ∧
    (find rawCodec sampleHandles 4 sampleDB 0 [1]).valid = true ∧
    (find rawCodec sampleHandles 4 sampleDB 0 [1]).iter.key = [1, 2] ∧
    equals (find rawCodec sampleHandles 4 sampleDB 0 [1])
      (end_ sampleHandles 4 sampleDB 0) = .ok false :=
  ⟨by decide, by decide, by decide, rfl⟩

/-- C2, evaluated on the code: in column family 4 every stored key is greater
than `[0]`, the smallest being `[1, 2]`; `SeekForPrev` finds no key at or before
`[0]`, no step is taken, and `upper_bound` returns the invalid cursor `end`
instead of the cursor at `[1, 2]`. -/
theorem upper_bound_below_all_keys_is_end :
    Sorted (sampleDB (sampleHandles 4)) ∧
    (∀ e ∈ sampleDB (sampleHandles 4), bytesLt [0] e.1 = true) ∧
    (begin sampleHandles 4 sampleDB 0).iter.key = [1, 2] ∧
    (upper_bound rawCodec sampleHandles 4 sampleDB 0 [0]).valid = false ∧
    equals (upper_bound rawCodec sampleHandles 4 sampleDB 0 [0])
      (end_ sampleHandles 4 sampleDB 0) = .ok true :=
  ⟨by decide, by decide, by decide, by decide, rfl⟩

/-- C3, evaluated on the code: with `lo = [0]` and `hi = [0, 1]` no key of column
family 4 lies in `[lo, hi]`, yet `range` returns the cursor at the first key
together with `end`, and advancing the first until it equals the second visits
both stored keys. -/
theorem range_below_all_keys_visits_everything :
    bytesLe [0] [0, 1] = true ∧
    (∀ e ∈ sampleDB (sampleHandles 4),
      ¬ (bytesLe [0] e.1 = true ∧ bytesLe e.1 [0, 1] = true)) ∧
    range rawCodec sampleHandles 4 sampleDB 0 [0] [0, 1] =
      (lower_bound rawCodec sampleHandles 4 sampleDB 0 [0],
       upper_bound rawCodec sampleHandles 4 sampleDB 0 [0, 1]) ∧
    visit 3 (range rawCodec sampleHandles 4 sampleDB 0 [0] [0, 1]).1
      (range rawCodec sampleHandles 4 sampleDB 0 [0] [0, 1]).2 = .ok [[1, 2], [5]] := by
  refine ⟨by decide, by decide, rfl, rfl⟩

/-- C7: over a column in ascending key order, `lower_bound` is positioned at the
smallest stored key at or after the serialized `k`, and it is invalid (and then
is the cursor `end`) exactly when every stored key is smaller than `k`. -/
theorem lower_bound_least_key_at_or_after {Key ID Value : Type}
    (codec : Codec Key ID Value) (handles : column_handles) (index : Nat) (db : DB)
    (cache : Nat) (k : Key) (hs : Sorted (db (handles index))) :
    (∀ e, (lower_bound codec handles index db cache k).iter.entry? = some e →
      e ∈ db (handles index) ∧ bytesLe (codec.pack k) e.1 = true ∧
      ∀ e2 ∈ db (handles index), bytesLe (codec.pack k) e2.1 = true →
        bytesLe e.1 e2.1 = true) ∧
    ((lower_bound codec handles index db cache k).valid = false ↔
      ∀ e ∈ db (handles index), bytesLt e.1 (codec.pack k) = true) ∧
    ((lower_bound codec handles index db cache k).valid = false →
      lower_bound codec handles index db cache k = end_ handles index db cache) := by
  have hentry : (lower_bound codec handles index db cache k).iter.entry? =
      ((db (handles index)).dropWhile (fun x => bytesLt x.1 (codec.pack k))).head? := by
    simp [lower_bound, mk_plain, NewIterator, RawIter.entry?_Seek]
  refine ⟨?_, ?_, ?_⟩
  · intro e he
    rw [hentry] at he
    exact head?_dropWhile_least _ _ hs e he
  · rw [← head?_dropWhile_none, ← hentry]
    simp [valid, RawIter.Valid]
  · intro hv
    have hp := RawIter.pos_Seek_of_invalid (NewIterator db (handles index)) (codec.pack k)
      (by simpa [valid, lower_bound, mk_plain] using hv)
    have hi : (NewIterator db (handles index)).Seek (codec.pack k) =
        NewIterator db (handles index) := by
      have he : ((NewIterator db (handles index)).Seek (codec.pack k)).entries =
          db (handles index) := rfl
      cases hq : (NewIterator db (handles index)).Seek (codec.pack k) with
      | mk en po =>
        rw [hq] at hp he
        simp only at hp he
        subst hp he
        rfl
    simp [lower_bound, end_, mk_plain, hi]

/-- Instance of `lower_bound_least_key_at_or_after` on the sample store: in column
family 1 the bound of `[2]` is the entry stored under `[2]`. -/
theorem lower_bound_least_key_at_or_after_witness :
    Sorted (sampleDB (sampleHandles 1)) ∧
    (lower_bound rawCodec sampleHandles 1 sampleDB 0 [2]).iter.entry? = some ([2], [2, 200]) ∧
    bytesLe (rawCodec.pack [2]) [2] = true :=
  ⟨by decide, by decide,
    ((lower_bound_least_key_at_or_after rawCodec sampleHandles 1 sampleDB 0 [2]
      (by decide)).1 ([2], [2, 200]) (by decide)).2.1⟩

end mira

namespace mira

open rocksdb_iterator

/-! ## Comparison -/

/-- C4, as stated, fails on the code: in column family 3 the cursor at `[1]` and the
cursor at `[1, 2]` are both valid with keys of different lengths; `equals` trips
`assert( this_key.size() == other_key.size() )` and does not return `false`. -/
theorem equals_unequal_lengths_trips_assertion :
    (begin sampleHandles 3 sampleDB 0).valid = true ∧
    (lower_bound rawCodec sampleHandles 3 sampleDB 0 [1, 2]).valid = true ∧
    (begin sampleHandles 3 sampleDB 0).iter.key = [1] ∧
    (lower_bound rawCodec sampleHandles 3 sampleDB 0 [1, 2]).iter.key = [1, 2] ∧
    equals (begin sampleHandles 3 sampleDB 0)
      (lower_bound rawCodec sampleHandles 3 sampleDB 0 [1, 2]) =
        .error Fault.assert_same_size ∧
    operator_eq (begin sampleHandles 3 sampleDB 0)
      (lower_bound rawCodec sampleHandles 3 sampleDB 0 [1, 2]) ≠ .ok false :=
  ⟨by decide, by decide, by decide, by decide, rfl, fun h => by cases h⟩

/-- C4, amended: when two valid cursors hold keys of different byte lengths the
length assertion of `equals` trips (so do `operator==` and `operator!=`); in every
other case `equals` and `operator==` return, the answer being true exactly when
both cursors are invalid or both are valid on identical key bytes, and
`operator!=` returns the negation. -/
theorem equals_iff_same_position (x y : rocksdb_iterator) :
    ((x.valid = true ∧ y.valid = true ∧ x.iter.key.length ≠ y.iter.key.length) →
      equals x y = .error Fault.assert_same_size ∧
      operator_eq x y = .error Fault.assert_same_size ∧
      operator_ne x y = .error Fault.assert_same_size) ∧
    (¬ (x.valid = true ∧ y.valid = true ∧ x.iter.key.length ≠ y.iter.key.length) →
      ∃ b, equals x y = .ok b ∧ operator_eq x y = .ok b ∧ operator_ne x y = .ok (!b) ∧
        (b = true ↔ ((x.valid = false ∧ y.valid = false) ∨
          (x.valid = true ∧ y.valid = true ∧ x.iter.key = y.iter.key)))) := by
  constructor
  · rintro ⟨hx, hy, hl⟩
    have he : equals x y = .error Fault.assert_same_size := by
      simp only [valid] at hx hy
      simp [equals, hx, hy, hl]
    refine ⟨he, he, ?_⟩
    simp [operator_ne, operator_eq, he, Except.map]
  · intro hn
    have key : ∃ b, equals x y = .ok b ∧
        (b = true ↔ ((x.valid = false ∧ y.valid = false) ∨
          (x.valid = true ∧ y.valid = true ∧ x.iter.key = y.iter.key))) := by
      simp only [valid] at hn ⊢
      cases hx : x.iter.Valid <;> cases hy : y.iter.Valid
      · exact ⟨true, by simp [equals, hx, hy], by simp⟩
      · exact ⟨false, by simp [equals, hx, hy], by simp⟩
      · exact ⟨false, by simp [equals, hx, hy], by simp⟩
      · have hl : x.iter.key.length = y.iter.key.length := by
          by_contra hne
          exact hn ⟨hx, hy, hne⟩
        refine ⟨decide (memcmp x.iter.key y.iter.key x.iter.key.length = 0),
          by simp [equals, hx, hy, hl], ?_⟩
        simp [memcmp_eq_zero_iff _ _ hl]
    obtain ⟨b, hb, hiff⟩ := key
    exact ⟨b, hb, hb, by simp [operator_ne, operator_eq, hb, Except.map], hiff⟩

/-- Instance of `equals_iff_same_position` on the sample store: `begin` of column
family 1 and the cursor `find` returns for its first key are valid on keys of the
same length, and compare equal. -/
theorem equals_iff_same_position_witness :
    ¬ ((begin sampleHandles 1 sampleDB 0).valid = true ∧
        (find rawCodec sampleHandles 1 sampleDB 0 [1]).valid = true ∧
        (begin sampleHandles 1 sampleDB 0).iter.key.length ≠
          (find rawCodec sampleHandles 1 sampleDB 0 [1]).iter.key.length) ∧
    ∃ b, equals (begin sampleHandles 1 sampleDB 0)
        (find rawCodec sampleHandles 1 sampleDB 0 [1]) = .ok b ∧
      operator_eq (begin sampleHandles 1 sampleDB 0)
        (find rawCodec sampleHandles 1 sampleDB 0 [1]) = .ok b ∧
      operator_ne (begin sampleHandles 1 sampleDB 0)
        (find rawCodec sampleHandles 1 sampleDB 0 [1]) = .ok (!b) ∧
      (b = true ↔
        (((begin sampleHandles 1 sampleDB 0).valid = false ∧
          (find rawCodec sampleHandles 1 sampleDB 0 [1]).valid = false) ∨
        ((begin sampleHandles 1 sampleDB 0).valid = true ∧
          (find rawCodec sampleHandles 1 sampleDB 0 [1]).valid = true ∧
          (begin sampleHandles 1 sampleDB 0).iter.key =
            (find rawCodec sampleHandles 1 sampleDB 0 [1]).iter.key))) :=
  ⟨by decide,
    (equals_iff_same_position (begin sampleHandles 1 sampleDB 0)
      (find rawCodec sampleHandles 1 sampleDB 0 [1])).2 (by decide)⟩

end mira

namespace mira

open rocksdb_iterator

/-! ## Dereference -/

theorem operator_star_cursor {Key ID Value Handle State : Type}
    (codec : Codec Key ID Value) (ch : Cache ID Value Handle State)
    (c : rocksdb_iterator) (s : State) :
    (operator_star codec ch c s).cursor = c := by
  unfold operator_star
  dsimp only
  repeat' split
  all_goals rfl

theorem operator_star_invalid {Key ID Value Handle State : Type}
    (codec : Codec Key ID Value) (ch : Cache ID Value Handle State)
    (c : rocksdb_iterator) (s : State) (hv : c.valid = false) :
    (operator_star codec ch c s).result = .error Fault.assert_valid := by
  simp [operator_star, hv]

theorem operator_star_direct {Key ID Value Handle State : Type}
    (codec : Codec Key ID Value) (ch : Cache ID Value Handle State)
    (c : rocksdb_iterator) (s : State) (hv : c.valid = true) (hi : c.index = ID_INDEX) :
    (operator_star codec ch c s).ops = [] ∧
    (operator_star codec ch c s).result = resolve codec ch c.iter.value s := by
  unfold operator_star resolve
  simp only [hv, hi]
  repeat' split
  all_goals simp_all

theorem operator_star_indirect {Key ID Value Handle State : Type}
    (codec : Codec Key ID Value) (ch : Cache ID Value Handle State)
    (c : rocksdb_iterator) (s : State) (hv : c.valid = true) (hi : c.index ≠ ID_INDEX) :
    (operator_star codec ch c s).ops = [StoreOp.get (c.handles ID_INDEX) c.iter.value] ∧
    (operator_star codec ch c s).result =
      match Get c.db (c.handles ID_INDEX) c.iter.value with
      | none => .error Fault.assert_get_ok
      | some record_bytes => resolve codec ch record_bytes s := by
  unfold operator_star resolve
  simp only [hv, hi]
  repeat' split
  all_goals simp_all

end mira

namespace mira

open rocksdb_iterator

theorem resolve_ok_of_decodes {Key ID Value Handle State : Type}
    (codec : Codec Key ID Value) (ch : Cache ID Value Handle State)
    (b : Bytes) (s : State) (hd : codec.Decodes b) :
    ∃ h s1, resolve codec ch b s = .ok (h, s1) := by
  obtain ⟨h1, h2⟩ := hd
  obtain ⟨i, hi⟩ := Option.isSome_iff_exists.mp h1
  obtain ⟨v, hv⟩ := Option.isSome_iff_exists.mp h2
  cases hg : ch.get s i with
  | some h => exact ⟨h, s, by simp [resolve, hi, hg]⟩
  | none => exact ⟨(ch.cache s v).2, (ch.cache s v).1, by simp [resolve, hi, hg, hv]⟩

theorem resolve_again {Key ID Value Handle State : Type}
    (codec : Codec Key ID Value) (ch : Cache ID Value Handle State)
    (hcontract : ch.Contract codec.get_id) (b : Bytes) (i : ID)
    (hid : codec.unpack_id b = some i)
    (hcoh : ∀ v, codec.unpack_value b = some v → codec.get_id v = i)
    (s : State) (h : Handle) (s1 : State)
    (hfirst : resolve codec ch b s = .ok (h, s1)) :
    ((ch.get s i = some h ∧ s1 = s) ∨
      (ch.get s i = none ∧ ∃ v, codec.unpack_value b = some v ∧
        h = (ch.cache s v).2 ∧ s1 = (ch.cache s v).1)) ∧
    ch.get s1 i = some h ∧
    resolve codec ch b s1 = .ok (h, s1) := by
  have hsecond : ch.get s1 i = some h → resolve codec ch b s1 = .ok (h, s1) := by
    intro hg
    simp [resolve, hid, hg]
  cases hg : ch.get s i with
  | some h0 =>
    simp only [resolve, hid, hg, Except.ok.injEq, Prod.mk.injEq] at hfirst
    obtain ⟨rfl, rfl⟩ := hfirst
    exact ⟨Or.inl ⟨rfl, rfl⟩, hg, hsecond hg⟩
  | none =>
    cases hv : codec.unpack_value b with
    | none => simp [resolve, hid, hg, hv] at hfirst
    | some v =>
      simp only [resolve, hid, hg, hv, Except.ok.injEq, Prod.mk.injEq] at hfirst
      obtain ⟨rfl, rfl⟩ := hfirst
      have hget : ch.get (ch.cache s v).1 i = some (ch.cache s v).2 := by
        have := hcontract s v
        rwa [hcoh v hv] at this
      exact ⟨Or.inr ⟨rfl, v, rfl, rfl, rfl⟩, hget, hsecond hget⟩

/-- C5, as stated, fails on the code: the constant `ID_INDEX` is 1, so a valid cursor
over column space 0 is dereferenced through a point lookup (into column space 1,
with its value bytes as key), while a valid cursor over column space 1, which is
not column space 0, issues no point lookup. -/
theorem deref_column_zero_is_not_direct :
    (begin sampleHandles 0 sampleDB 0).index = 0 ∧
    (begin sampleHandles 0 sampleDB 0).valid = true ∧
    (operator_star rawCodec listCache (begin sampleHandles 0 sampleDB 0) []).ops =
      [StoreOp.get 1 [1]] ∧
    (begin sampleHandles 1 sampleDB 0).index ≠ 0 ∧
    (begin sampleHandles 1 sampleDB 0).valid = true ∧
    (operator_star rawCodec listCache (begin sampleHandles 1 sampleDB 0) []).ops = [] := by
  decide

/-- C5, amended: column space `ID_INDEX` (which is 1) is the primary index for record
resolution.  Dereferencing a valid cursor over it takes the direct path: no point
lookup, and the record is resolved from the cursor's own value bytes.  Dereferencing
a valid cursor over any other column space issues one point lookup into column
space `ID_INDEX` with the cursor's value bytes as key and resolves the bytes that
lookup returns. -/
theorem deref_path_chosen_by_ID_INDEX {Key ID Value Handle State : Type}
    (codec : Codec Key ID Value) (ch : Cache ID Value Handle State)
    (c : rocksdb_iterator) (s : State) (hv : c.valid = true) :
    ID_INDEX = 1 ∧
    (c.index = ID_INDEX →
      (operator_star codec ch c s).ops = [] ∧
      (operator_star codec ch c s).result = resolve codec ch c.iter.value s) ∧
    (c.index ≠ ID_INDEX →
      (operator_star codec ch c s).ops =
        [StoreOp.get (c.handles ID_INDEX) c.iter.value] ∧
      (operator_star codec ch c s).result =
        match Get c.db (c.handles ID_INDEX) c.iter.value with
        | none => .error Fault.assert_get_ok
        | some record_bytes => resolve codec ch record_bytes s) :=
  ⟨rfl, operator_star_direct codec ch c s hv, operator_star_indirect codec ch c s hv⟩

/-- Instance of `deref_path_chosen_by_ID_INDEX` on the sample store: the cursor at
the first entry of column family 2 is valid and over a secondary index, and its
dereference issues the lookup of `[2]` in column family 1. -/
theorem deref_path_chosen_by_ID_INDEX_witness :
    (begin sampleHandles 2 sampleDB 0).valid = true ∧
    (begin sampleHandles 2 sampleDB 0).index ≠ ID_INDEX ∧
    (operator_star rawCodec listCache (begin sampleHandles 2 sampleDB 0) []).ops =
      [StoreOp.get ((begin sampleHandles 2 sampleDB 0).handles ID_INDEX)
        (begin sampleHandles 2 sampleDB 0).iter.value] :=
  ⟨by decide, by decide,
    ((deref_path_chosen_by_ID_INDEX rawCodec listCache (begin sampleHandles 2 sampleDB 0) []
      (by decide)).2.2 (by decide)).1⟩

end mira

namespace mira

open rocksdb_iterator

theorem listCache_contract : listCache.Contract rawCodec.get_id := by
  intro s v
  simp only [listCache, rawCodec]
  cases hl : List.lookup (v.headD 0) s with
  | some h => simp only [hl]
  | none => simp [List.lookup]

theorem rawCodec_coherent : rawCodec.Coherent := by
  intro b i v hi hv
  simp only [rawCodec] at hi hv ⊢
  split_ifs at hv with hb
  cases hv
  cases b with
  | nil => simp at hi
  | cons x xs => simpa using hi

theorem resolve_ok_unpack_id {Key ID Value Handle State : Type}
    (codec : Codec Key ID Value) (ch : Cache ID Value Handle State)
    (b : Bytes) (s : State) (x : Handle × State)
    (h : resolve codec ch b s = .ok x) : ∃ i, codec.unpack_id b = some i := by
  cases hi : codec.unpack_id b with
  | none => simp [resolve, hi] at h
  | some i => exact ⟨i, rfl⟩

/-- C6: when the secondary entry `sk -> pk` and the primary entry `pk -> bytes` both
exist, `bytes` being the serialization of a record `r` with identity `i`, and the
cache keeps its contract, then dereferencing the primary cursor at `pk` and the
secondary cursor at `sk` returns the same handle, whichever is dereferenced first. -/
theorem deref_primary_and_secondary_share_handle {Key ID Value Handle State : Type}
    (codec : Codec Key ID Value) (ch : Cache ID Value Handle State)
    (cp cs : rocksdb_iterator) (sk pk bytes : Bytes) (i : ID) (r : Value) (s : State)
    (hcontract : ch.Contract codec.get_id)
    (hp : cp.index = ID_INDEX) (hs : cs.index ≠ ID_INDEX)
    (hpe : cp.iter.entry? = some (pk, bytes))
    (hse : cs.iter.entry? = some (sk, pk))
    (hget : Get cs.db (cs.handles ID_INDEX) pk = some bytes)
    (hid : codec.unpack_id bytes = some i)
    (hval : codec.unpack_value bytes = some r)
    (hri : codec.get_id r = i) :
    ∃ h s1,
      ((operator_star codec ch cp s).result = .ok (h, s1) ∧
        (operator_star codec ch cs s1).result = .ok (h, s1)) ∧
      ((operator_star codec ch cs s).result = .ok (h, s1) ∧
        (operator_star codec ch cp s1).result = .ok (h, s1)) := by
  have hpv : cp.valid = true := RawIter.Valid_of_entry? hpe
  have hsv : cs.valid = true := RawIter.Valid_of_entry? hse
  have hP : ∀ t, (operator_star codec ch cp t).result = resolve codec ch bytes t := by
    intro t
    rw [(operator_star_direct codec ch cp t hpv hp).2, RawIter.value_of_entry? hpe]
  have hS : ∀ t, (operator_star codec ch cs t).result = resolve codec ch bytes t := by
    intro t
    rw [(operator_star_indirect codec ch cs t hsv hs).2, RawIter.value_of_entry? hse]
    simp only [hget]
  obtain ⟨h, s1, hfirst⟩ := resolve_ok_of_decodes codec ch bytes s
    ⟨by simp [hid], by simp [hval]⟩
  have hcoh : ∀ v, codec.unpack_value bytes = some v → codec.get_id v = i := by
    intro v hv
    rw [hval] at hv
    cases hv
    exact hri
  have hagain := (resolve_again codec ch hcontract bytes i hid hcoh s h s1 hfirst).2.2
  exact ⟨h, s1, ⟨by rw [hP, hfirst], by rw [hS, hagain]⟩,
    ⟨by rw [hS, hfirst], by rw [hP, hagain]⟩⟩

/-- Instance of `deref_primary_and_secondary_share_handle` on the sample store: the
secondary entry `[6] -> [1]` of column family 2 and the primary entry
`[1] -> [1, 100]`, dereferenced on an empty cache. -/
theorem deref_primary_and_secondary_share_handle_witness :
    listCache.Contract rawCodec.get_id ∧
    (find rawCodec sampleHandles 1 sampleDB 0 [1]).iter.entry? = some ([1], [1, 100]) ∧
    (find rawCodec sampleHandles 2 sampleDB 0 [6]).iter.entry? = some ([6], [1]) ∧
    ∃ h s1,
      ((operator_star rawCodec listCache
          (find rawCodec sampleHandles 1 sampleDB 0 [1]) []).result = .ok (h, s1) ∧
        (operator_star rawCodec listCache
          (find rawCodec sampleHandles 2 sampleDB 0 [6]) s1).result = .ok (h, s1)) ∧
      ((operator_star rawCodec listCache
          (find rawCodec sampleHandles 2 sampleDB 0 [6]) []).result = .ok (h, s1) ∧
        (operator_star rawCodec listCache
          (find rawCodec sampleHandles 1 sampleDB 0 [1]) s1).result = .ok (h, s1)) :=
  have hc : listCache.Contract rawCodec.get_id := listCache_contract
  ⟨hc, by decide, by decide,
    deref_primary_and_secondary_share_handle rawCodec listCache
      (find rawCodec sampleHandles 1 sampleDB 0 [1])
      (find rawCodec sampleHandles 2 sampleDB 0 [6])
      [6] [1] [1, 100] 1 [1, 100] [] hc (by decide) (by decide) (by decide) (by decide)
      (by decide) (by decide) (by decide) (by decide)⟩

/-- C10: under the cache contract, when dereferencing a cursor returns the handle `h`
(leaving the cache in state `s1`), the cursor was valid, the handle is either the
one the cache already held for the identity or, on a miss, the one `cache` handed
back, the cache now holds `h` for that identity, dereferencing again returns `h`
once more, and both dereferences leave the cursor as it was. -/
theorem deref_twice_same_handle {Key ID Value Handle State : Type}
    (codec : Codec Key ID Value) (ch : Cache ID Value Handle State)
    (c : rocksdb_iterator) (s : State) (h : Handle) (s1 : State)
    (hcontract : ch.Contract codec.get_id) (hcoh : codec.Coherent)
    (hfirst : (operator_star codec ch c s).result = .ok (h, s1)) :
    c.valid = true ∧
    (operator_star codec ch c s).cursor = c ∧
    (operator_star codec ch c s1).result = .ok (h, s1) ∧
    (operator_star codec ch c s1).cursor = c ∧
    (operator_star codec ch c s1).cursor.iter.entry? = c.iter.entry? ∧
    ∃ i, ((ch.get s i = some h ∧ s1 = s) ∨
        (ch.get s i = none ∧ ∃ v, codec.get_id v = i ∧
          h = (ch.cache s v).2 ∧ s1 = (ch.cache s v).1)) ∧
      ch.get s1 i = some h := by
  have hv : c.valid = true := by
    cases hc : c.valid with
    | true => rfl
    | false => rw [operator_star_invalid codec ch c s hc] at hfirst; cases hfirst
  have hres : ∃ b, resolve codec ch b s = .ok (h, s1) ∧
      ∀ t, (operator_star codec ch c t).result = resolve codec ch b t := by
    by_cases hi : c.index = ID_INDEX
    · refine ⟨c.iter.value, ?_, fun t => (operator_star_direct codec ch c t hv hi).2⟩
      rw [← (operator_star_direct codec ch c s hv hi).2]
      exact hfirst
    · cases hg : Get c.db (c.handles ID_INDEX) c.iter.value with
      | none =>
        rw [(operator_star_indirect codec ch c s hv hi).2, hg] at hfirst
        cases hfirst
      | some b =>
        refine ⟨b, ?_, fun t => ?_⟩
        · rw [(operator_star_indirect codec ch c s hv hi).2, hg] at hfirst
          exact hfirst
        · rw [(operator_star_indirect codec ch c t hv hi).2, hg]
  obtain ⟨b, hb, hall⟩ := hres
  obtain ⟨i, hid⟩ := resolve_ok_unpack_id codec ch b s _ hb
  obtain ⟨hcase, hget, hagain⟩ :=
    resolve_again codec ch hcontract b i hid (fun v hv2 => hcoh b i v hid hv2) s h s1 hb
  refine ⟨hv, operator_star_cursor codec ch c s, by rw [hall, hagain],
    operator_star_cursor codec ch c s1, by rw [operator_star_cursor], i, ?_, hget⟩
  rcases hcase with hhit | ⟨hmiss, v, hv2, hh, hs⟩
  · exact Or.inl hhit
  · exact Or.inr ⟨hmiss, v, hcoh b i v hid hv2, hh, hs⟩

/-- Instance of `deref_twice_same_handle` on the sample store: the secondary cursor at
`[9]` dereferenced on an empty cache misses, caches the record of identity 3 under
handle 0, and the second dereference returns handle 0 again. -/
theorem deref_twice_same_handle_witness :
    listCache.Contract rawCodec.get_id ∧ rawCodec.Coherent ∧
    (operator_star rawCodec listCache
      (find rawCodec sampleHandles 2 sampleDB 0 [9]) []).result = .ok (0, [(3, 0)]) ∧
    (operator_star rawCodec listCache
      (find rawCodec sampleHandles 2 sampleDB 0 [9]) [(3, 0)]).result = .ok (0, [(3, 0)]) :=
  ⟨listCache_contract, rawCodec_coherent, rfl,
    (deref_twice_same_handle rawCodec listCache
      (find rawCodec sampleHandles 2 sampleDB 0 [9]) [] 0 [(3, 0)]
      listCache_contract rawCodec_coherent rfl).2.2.1⟩

end mira

namespace mira

open rocksdb_iterator

/-! ## Copying and stepping -/

theorem takeWhile_length_of_get? :
    ∀ (col : Column) (i : Nat) (e : Bytes × Bytes), Sorted col → col.get? i = some e →
      (col.takeWhile (fun x => bytesLt x.1 e.1)).length = i
  | [], _, _, _, h => by simp at h
  | x :: xs, 0, e, _, h => by
    have hx : x = e := by simpa using h
    subst hx
    simp [List.takeWhile, bytesLt_irrefl]
  | x :: xs, i + 1, e, hs, h => by
    have hs2 : (∀ b ∈ xs, bytesLt x.1 b.1 = true) ∧ Sorted xs := by
      simpa [Sorted] using hs
    have h2 : xs.get? i = some e := by simpa using h
    have hx : bytesLt x.1 e.1 = true := hs2.1 e (List.get?_mem h2)
    simp [List.takeWhile, hx, takeWhile_length_of_get? xs i e hs2.2 h2]

theorem RawIter.Seek_own_key (col : Column) (p : Option Nat) (i : Nat) (e : Bytes × Bytes)
    (hs : Sorted col) (h : col.get? i = some e) :
    ({ entries := col, pos := p } : RawIter).Seek e.1 = { entries := col, pos := some i } := by
  have hlt : i < col.length := by
    by_contra hn
    rw [List.get?_eq_none.mpr (by omega)] at h
    cases h
  simp [RawIter.Seek, takeWhile_length_of_get? col i e hs h, hlt]

theorem RawIter.valid_pos {it : RawIter} (hv : it.Valid = true) :
    ∃ i e, it.pos = some i ∧ it.entries.get? i = some e ∧ it.entry? = some e := by
  obtain ⟨e, he⟩ := Option.isSome_iff_exists.mp (show it.entry?.isSome = true from hv)
  cases hp : it.pos with
  | none => simp [RawIter.entry?, hp] at he
  | some i =>
    refine ⟨i, e, rfl, ?_, he⟩
    simpa [RawIter.entry?, hp] using he

theorem copy_of_valid (c : rocksdb_iterator) (hown : OwnColumn c)
    (hs : Sorted c.iter.entries) (hv : c.valid = true) : copy c = c := by
  obtain ⟨i, e, hp, hg, he⟩ := RawIter.valid_pos (show c.iter.Valid = true from hv)
  have hk : c.iter.key = e.1 := RawIter.key_of_entry? he
  have hv2 : c.iter.Valid = true := hv
  have hit : (NewIterator c.db (c.handles c.index)).Seek c.iter.key = c.iter := by
    unfold OwnColumn at hown
    rw [hk, NewIterator, ← hown, RawIter.Seek_own_key c.iter.entries none i e hs hg, ← hp]
  cases c with
  | mk handles index iter snapshot db cache =>
    simp only [copy] at hit ⊢
    simp only at hv2
    simp [hv2, hit]

theorem copy_of_invalid (c : rocksdb_iterator) (hv : c.valid = false) :
    (copy c).iter = NewIterator c.db (c.handles c.index) := by
  have hv2 : c.iter.Valid = false := hv
  simp [copy, hv2]

theorem copy_entry? (c : rocksdb_iterator) (hown : OwnColumn c)
    (hs : Sorted c.iter.entries) : (copy c).iter.entry? = c.iter.entry? := by
  cases hv : c.valid with
  | true => rw [copy_of_valid c hown hs hv]
  | false =>
    rw [copy_of_invalid c hv]
    have : c.iter.entry? = none := by
      have hv2 : c.iter.entry?.isSome = false := hv
      simpa using hv2
    rw [this]
    rfl

theorem copy_ownColumn (c : rocksdb_iterator) : OwnColumn (copy c) := by
  unfold OwnColumn copy
  simp only
  split_ifs <;> rfl

theorem equals_of_entry?_eq (x y : rocksdb_iterator)
    (h : x.iter.entry? = y.iter.entry?) : equals x y = .ok true := by
  have hv : x.iter.Valid = y.iter.Valid := by simp [RawIter.Valid, h]
  have hk : x.iter.key = y.iter.key := by simp [RawIter.key, h]
  cases hy : y.iter.Valid <;> simp [equals, hv, hy, hk, memcmp_self]

/-- C11, amended: for a cursor whose raw position is over the column space of its
own index, kept in ascending key order, the copy-constructed cursor is over the
same column space and compares equal to the original: it is invalid when the
original is invalid, and valid on the identical key bytes (the same entry) when
the original is valid. -/
theorem copy_reproduces_position (c : rocksdb_iterator) (hown : OwnColumn c)
    (hs : Sorted c.iter.entries) :
    (copy c).index = c.index ∧ (copy c).handles = c.handles ∧ (copy c).db = c.db ∧
    (copy c).iter.entries = c.iter.entries ∧
    (copy c).valid = c.valid ∧
    (copy c).iter.entry? = c.iter.entry? ∧
    (c.valid = true → (copy c).iter.key = c.iter.key) ∧
    equals (copy c) c = .ok true ∧ operator_eq (copy c) c = .ok true := by
  have he := copy_entry? c hown hs
  have hent : (copy c).iter.entries = c.iter.entries := by
    rw [copy_ownColumn c]
    exact hown.symm
  refine ⟨rfl, rfl, rfl, hent, ?_, he, ?_, equals_of_entry?_eq _ _ he,
    equals_of_entry?_eq _ _ he⟩
  · simp [valid, RawIter.Valid, he]
  · intro _
    simp [RawIter.key, he]

/-- Instance of `copy_reproduces_position` on the sample store: the cursor `find`
returns for `[6]` in column family 2 and its copy are on the same entry. -/
theorem copy_reproduces_position_witness :
    OwnColumn (find rawCodec sampleHandles 2 sampleDB 0 [6]) ∧
    Sorted (find rawCodec sampleHandles 2 sampleDB 0 [6]).iter.entries ∧
    (copy (find rawCodec sampleHandles 2 sampleDB 0 [6])).iter.entry? = some ([6], [1]) ∧
    (copy (find rawCodec sampleHandles 2 sampleDB 0 [6])).iter.entry? =
      (find rawCodec sampleHandles 2 sampleDB 0 [6]).iter.entry? :=
  ⟨by decide, by decide, by decide,
    (copy_reproduces_position (find rawCodec sampleHandles 2 sampleDB 0 [6])
      (by decide) (by decide)).2.2.2.2.2.1⟩

end mira

namespace mira

open rocksdb_iterator

theorem RawIter.entries_Next (it : RawIter) : it.Next.entries = it.entries := by
  unfold RawIter.Next
  cases it.pos <;> rfl

theorem RawIter.entries_Prev (it : RawIter) : it.Prev.entries = it.entries := by
  unfold RawIter.Prev
  split <;> rfl

theorem RawIter.entry?_Next (it : RawIter) (i : Nat) (hp : it.pos = some i) :
    it.Next.entry? = it.entries.get? (i + 1) := by
  unfold RawIter.Next RawIter.entry?
  rw [hp]
  simp only
  split_ifs with h
  · rfl
  · exact (List.get?_eq_none.mpr (by omega)).symm

theorem RawIter.entry?_Prev_succ (it : RawIter) (i : Nat) (hp : it.pos = some (i + 1)) :
    it.Prev.entry? = it.entries.get? i := by
  simp [RawIter.Prev, RawIter.entry?, hp]

theorem RawIter.entry?_Prev_zero (it : RawIter) (hp : it.pos = some 0) :
    it.Prev.entry? = none := by
  simp [RawIter.Prev, RawIter.entry?, hp]

theorem sorted_get?_inj (col : Column) (hs : Sorted col) (i j : Nat) (e : Bytes × Bytes)
    (hi : col.get? i = some e) (hj : col.get? j = some e) : i = j := by
  rw [← takeWhile_length_of_get? col i e hs hi, ← takeWhile_length_of_get? col j e hs hj]

theorem operator_inc_ownColumn (c : rocksdb_iterator) (h : OwnColumn c) :
    OwnColumn c.operator_inc := by
  unfold OwnColumn operator_inc at *
  simpa [RawIter.entries_Next] using h

theorem operator_dec_ownColumn (c : rocksdb_iterator) (h : OwnColumn c) :
    OwnColumn c.operator_dec := by
  unfold OwnColumn operator_dec at *
  simpa [RawIter.entries_Prev] using h

theorem entry?_operator_inc_ne (c : rocksdb_iterator) (hs : Sorted c.iter.entries)
    (hv : c.valid = true) : c.operator_inc.iter.entry? ≠ c.iter.entry? := by
  obtain ⟨i, e, hp, hg, he⟩ := RawIter.valid_pos (show c.iter.Valid = true from hv)
  intro h
  have h1 : c.iter.entries.get? (i + 1) = some e := by
    rw [← RawIter.entry?_Next c.iter i hp, ← he]
    exact h
  have := sorted_get?_inj _ hs _ _ e h1 hg
  omega

theorem entry?_operator_dec_ne (c : rocksdb_iterator) (hs : Sorted c.iter.entries)
    (hv : c.valid = true) : c.operator_dec.iter.entry? ≠ c.iter.entry? := by
  obtain ⟨i, e, hp, hg, he⟩ := RawIter.valid_pos (show c.iter.Valid = true from hv)
  intro h
  cases i with
  | zero =>
    have h0 : c.operator_dec.iter.entry? = none := RawIter.entry?_Prev_zero c.iter hp
    rw [h0, he] at h
    cases h
  | succ j =>
    have h1 : c.iter.entries.get? j = some e := by
      rw [← RawIter.entry?_Prev_succ c.iter j hp, ← he]
      exact h
    have := sorted_get?_inj _ hs _ _ e h1 hg
    omega

theorem cursor_object.load_eq_some {heap : IterHeap} {o : cursor_object}
    {cv : rocksdb_iterator} (h : o.load heap = some cv) :
    heap.get? o.iter_ptr = some cv.iter ∧ o.iter_ptr < heap.length ∧
    cv.handles = o.handles ∧ cv.index = o.index ∧ cv.snapshot = o.snapshot ∧
    cv.db = o.db ∧ cv.cache = o.cache := by
  unfold cursor_object.load at h
  cases hg : heap.get? o.iter_ptr with
  | none => rw [hg] at h; cases h
  | some it =>
    rw [hg] at h
    have hlt : o.iter_ptr < heap.length := by
      by_contra hn
      rw [List.get?_eq_none.mpr (by omega)] at hg
      cases hg
    simp only [Option.map_some', Option.some.injEq] at h
    subst h
    exact ⟨rfl, hlt, rfl, rfl, rfl, rfl, rfl⟩

theorem cursor_object.load_of_get? {heap : IterHeap} {o : cursor_object} {r : RawIter}
    (h : heap.get? o.iter_ptr = some r) :
    o.load heap = some
      { handles := o.handles, index := o.index, iter := r,
        snapshot := o.snapshot, db := o.db, cache := o.cache } := by
  unfold cursor_object.load
  rw [h]
  rfl

theorem cursor_object.load_congr {heap heap2 : IterHeap} {o : cursor_object}
    (h : heap2.get? o.iter_ptr = heap.get? o.iter_ptr) : o.load heap2 = o.load heap := by
  unfold cursor_object.load
  rw [h]

theorem cursor_object.copy_spec (heap : IterHeap) (c : cursor_object) (cv : rocksdb_iterator)
    (hload : c.load heap = some cv) :
    cursor_object.copy heap c =
      some (heap ++ [(rocksdb_iterator.copy cv).iter], { c with iter_ptr := heap.length }) ∧
    ({ c with iter_ptr := heap.length } : cursor_object).load
      (heap ++ [(rocksdb_iterator.copy cv).iter]) = some (rocksdb_iterator.copy cv) ∧
    c.load (heap ++ [(rocksdb_iterator.copy cv).iter]) = some cv := by
  obtain ⟨hg, hlt, h1, h2, h3, h4, h5⟩ := cursor_object.load_eq_some hload
  refine ⟨by simp [cursor_object.copy, hload], ?_, ?_⟩
  · have hget : (heap ++ [(rocksdb_iterator.copy cv).iter]).get? heap.length =
        some (rocksdb_iterator.copy cv).iter := by simp
    rw [cursor_object.load_of_get? hget]
    simp [rocksdb_iterator.copy, h1, h2, h3, h4, h5]
  · rw [← hload]
    apply cursor_object.load_congr
    simp [List.getElem?_append_left hlt]

theorem cursor_object.step_spec (f : RawIter → RawIter) (heap : IterHeap)
    (c c2 : cursor_object) (cv v2 : rocksdb_iterator)
    (hne : c2.iter_ptr ≠ c.iter_ptr) (hc : c.load heap = some cv)
    (h2 : c2.load heap = some v2) :
    ((heap.get? c2.iter_ptr).map fun it => heap.set c2.iter_ptr (f it)) =
      some (heap.set c2.iter_ptr (f v2.iter)) ∧
    c2.load (heap.set c2.iter_ptr (f v2.iter)) = some { v2 with iter := f v2.iter } ∧
    c.load (heap.set c2.iter_ptr (f v2.iter)) = some cv := by
  obtain ⟨hg, hlt, h1, h2', h3, h4, h5⟩ := cursor_object.load_eq_some h2
  refine ⟨by rw [hg]; rfl, ?_, ?_⟩
  · have hget : (heap.set c2.iter_ptr (f v2.iter)).get? c2.iter_ptr = some (f v2.iter) := by
      simp [hlt]
    rw [cursor_object.load_of_get? hget]
    simp [h1, h2', h3, h4, h5]
  · rw [← hc]
    apply cursor_object.load_congr
    simp [List.getElem?_set_ne hne]

/-- C12: for a valid cursor `c` in memory, copy-constructing `c2` from it allocates
an iterator of its own for `c2`, and after `++c2` (or `--c2`) the copy has taken
the step while the original still denotes the cursor it denoted before: valid, on
the same key bytes. -/
theorem copy_then_step_leaves_original (heap : IterHeap) (c : cursor_object)
    (cv : rocksdb_iterator) (hload : c.load heap = some cv) (hv : cv.valid = true) :
    ∃ h1 c2, cursor_object.copy heap c = some (h1, c2) ∧
      c2.iter_ptr ≠ c.iter_ptr ∧
      c2.load h1 = some (rocksdb_iterator.copy cv) ∧
      (∃ h2, cursor_object.operator_inc h1 c2 = some h2 ∧
        c2.load h2 = some (rocksdb_iterator.copy cv).operator_inc ∧
        ∃ after, c.load h2 = some after ∧ after = cv ∧ after.valid = true ∧
          after.iter.key = cv.iter.key) ∧
      (∃ h2, cursor_object.operator_dec h1 c2 = some h2 ∧
        c2.load h2 = some (rocksdb_iterator.copy cv).operator_dec ∧
        ∃ after, c.load h2 = some after ∧ after = cv ∧ after.valid = true ∧
          after.iter.key = cv.iter.key) := by
  obtain ⟨hcopy, hl2, hl1⟩ := cursor_object.copy_spec heap c cv hload
  have hlt := (cursor_object.load_eq_some hload).2.1
  have hne : ({ c with iter_ptr := heap.length } : cursor_object).iter_ptr ≠ c.iter_ptr := by
    show heap.length ≠ c.iter_ptr
    omega
  refine ⟨_, _, hcopy, hne, hl2, ?_, ?_⟩
  · obtain ⟨ha, hb, hc⟩ := cursor_object.step_spec RawIter.Next _ c _ cv _ hne hl1 hl2
    exact ⟨_, ha, hb, cv, hc, rfl, hv, rfl⟩
  · obtain ⟨ha, hb, hc⟩ := cursor_object.step_spec RawIter.Prev _ c _ cv _ hne hl1 hl2
    exact ⟨_, ha, hb, cv, hc, rfl, hv, rfl⟩

/-- Instance of `copy_then_step_leaves_original` on the sample memory: the cursor at
`[6]` of column family 2 is copied, the copy gets the iterator at address 1, and
after the step the original is still at `[6]`. -/
theorem copy_then_step_leaves_original_witness :
    sampleObject.load sampleHeap =
      some (rocksdb_iterator.find rawCodec sampleHandles 2 sampleDB 0 [6]) ∧
    (rocksdb_iterator.find rawCodec sampleHandles 2 sampleDB 0 [6]).valid = true ∧
    (rocksdb_iterator.find rawCodec sampleHandles 2 sampleDB 0 [6]).iter.key = [6] ∧
    ∃ h1 c2, cursor_object.copy sampleHeap sampleObject = some (h1, c2) ∧
      c2.iter_ptr ≠ sampleObject.iter_ptr ∧
      c2.load h1 = some (rocksdb_iterator.copy
        (rocksdb_iterator.find rawCodec sampleHandles 2 sampleDB 0 [6])) ∧
      (∃ h2, cursor_object.operator_inc h1 c2 = some h2 ∧
        c2.load h2 = some (rocksdb_iterator.copy
          (rocksdb_iterator.find rawCodec sampleHandles 2 sampleDB 0 [6])).operator_inc ∧
        ∃ after, sampleObject.load h2 = some after ∧
          after = rocksdb_iterator.find rawCodec sampleHandles 2 sampleDB 0 [6] ∧
          after.valid = true ∧
          after.iter.key =
            (rocksdb_iterator.find rawCodec sampleHandles 2 sampleDB 0 [6]).iter.key) ∧
      (∃ h2, cursor_object.operator_dec h1 c2 = some h2 ∧
        c2.load h2 = some (rocksdb_iterator.copy
          (rocksdb_iterator.find rawCodec sampleHandles 2 sampleDB 0 [6])).operator_dec ∧
        ∃ after, sampleObject.load h2 = some after ∧
          after = rocksdb_iterator.find rawCodec sampleHandles 2 sampleDB 0 [6] ∧
          after.valid = true ∧
          after.iter.key =
            (rocksdb_iterator.find rawCodec sampleHandles 2 sampleDB 0 [6]).iter.key) :=
  ⟨rfl, by decide, by decide,
    copy_then_step_leaves_original sampleHeap sampleObject
      (rocksdb_iterator.find rawCodec sampleHandles 2 sampleDB 0 [6]) rfl (by decide)⟩

end mira

namespace mira

open rocksdb_iterator

/-! ## Traversal, `begin` and `end` -/

theorem begin_iter (handles : column_handles) (index : Nat) (db : DB) (cache : Nat) :
    (begin handles index db cache).iter =
      { entries := db (handles index),
        pos := if (db (handles index)).isEmpty then none else some 0 } := rfl

theorem operator_inc_iter_at (c : rocksdb_iterator) (col : Column) (j : Nat)
    (h : c.iter = { entries := col, pos := some j }) :
    c.operator_inc.iter =
      { entries := col, pos := if j + 1 < col.length then some (j + 1) else none } := by
  simp [operator_inc, RawIter.Next, h]

theorem operator_dec_iter_at (c : rocksdb_iterator) (col : Column) (j : Nat)
    (h : c.iter = { entries := col, pos := some j }) :
    c.operator_dec.iter =
      { entries := col, pos := if j = 0 then none else some (j - 1) } := by
  cases j <;> simp [operator_dec, RawIter.Prev, h]

theorem iterate_inc_begin (handles : column_handles) (index : Nat) (db : DB) (cache : Nat) :
    ∀ j, j < (db (handles index)).length →
      (operator_inc^[j] (begin handles index db cache)).iter =
        { entries := db (handles index), pos := some j }
  | 0, h => by
    have hne : (db (handles index)).isEmpty = false := by
      cases hc : db (handles index) with
      | nil => simp [hc] at h
      | cons x xs => rfl
    simp [begin_iter, hne]
  | j + 1, h => by
    rw [Function.iterate_succ_apply']
    rw [operator_inc_iter_at _ _ j (iterate_inc_begin handles index db cache j (by omega))]
    simp [h]

theorem iterate_dec_from (c : rocksdb_iterator) (col : Column) (m : Nat)
    (h : c.iter = { entries := col, pos := some m }) :
    ∀ j, j ≤ m → (operator_dec^[j] c).iter = { entries := col, pos := some (m - j) }
  | 0, _ => by simpa using h
  | j + 1, hj => by
    rw [Function.iterate_succ_apply']
    rw [operator_dec_iter_at _ _ (m - j) (iterate_dec_from c col m h j (by omega))]
    have h1 : ¬ (m - j = 0) := by omega
    have h2 : m - j - 1 = m - (j + 1) := by omega
    simp [h1, h2]

theorem traversal_core (handles : column_handles) (index : Nat) (db : DB) (cache : Nat)
    (n : Nat) (hn : (db (handles index)).length = n + 1) :
    (operator_inc^[n + 1] (begin handles index db cache)).iter.entry? = none ∧
    (∀ j, j ≤ n → (operator_dec^[j] (operator_inc^[n] (begin handles index db cache))).iter =
      { entries := db (handles index), pos := some (n - j) }) ∧
    (operator_dec^[n + 1] (operator_inc^[n] (begin handles index db cache))).iter.entry? =
      none := by
  have hlast := iterate_inc_begin handles index db cache n (by omega)
  have hback := iterate_dec_from _ _ _ hlast
  refine ⟨?_, hback, ?_⟩
  · rw [Function.iterate_succ_apply', operator_inc_iter_at _ _ _ hlast]
    simp [hn, RawIter.entry?]
  · have h2 := hback n (le_refl _)
    rw [Nat.sub_self] at h2
    rw [Function.iterate_succ_apply', operator_dec_iter_at _ _ 0 h2]
    simp [RawIter.entry?]

/-- C13: in a column space holding `n >= 1` entries, the `j`-th advance from `begin`
(`j < n`) is on the `j`-th entry in key order and the `n`-th advance is invalid and
compares equal to `end`; from the cursor on the last entry (reached by `n - 1`
advances) the `j`-th retreat is on entry `n - 1 - j`, which is the entry the
forward traversal visited at step `n - 1 - j`, and the `n`-th retreat is invalid. -/
theorem traversal_forward_and_backward (handles : column_handles) (index : Nat) (db : DB)
    (cache : Nat) (hne : 1 ≤ (db (handles index)).length) :
    (∀ j, j < (db (handles index)).length →
      (operator_inc^[j] (begin handles index db cache)).iter.entry? =
        (db (handles index)).get? j) ∧
    (operator_inc^[(db (handles index)).length] (begin handles index db cache)).valid = false ∧
    equals (operator_inc^[(db (handles index)).length] (begin handles index db cache))
      (end_ handles index db cache) = .ok true ∧
    (∀ j, j < (db (handles index)).length →
      (operator_dec^[j] (operator_inc^[(db (handles index)).length - 1]
        (begin handles index db cache))).iter.entry? =
          (db (handles index)).get? ((db (handles index)).length - 1 - j) ∧
      (operator_dec^[j] (operator_inc^[(db (handles index)).length - 1]
        (begin handles index db cache))).iter.entry? =
          (operator_inc^[(db (handles index)).length - 1 - j]
            (begin handles index db cache)).iter.entry?) ∧
    (operator_dec^[(db (handles index)).length] (operator_inc^[(db (handles index)).length - 1]
      (begin handles index db cache))).valid = false := by
  obtain ⟨n, hn⟩ : ∃ n, (db (handles index)).length = n + 1 :=
    ⟨(db (handles index)).length - 1, by omega⟩
  obtain ⟨hend, hback, hfront⟩ := traversal_core handles index db cache n hn
  have hfwd := iterate_inc_begin handles index db cache
  have hentry : ∀ j, j < n + 1 →
      (operator_inc^[j] (begin handles index db cache)).iter.entry? =
        (db (handles index)).get? j := by
    intro j hj
    rw [hfwd j (by omega)]
    rfl
  rw [hn]
  simp only [Nat.add_sub_cancel]
  refine ⟨hentry, ?_, ?_, ?_, ?_⟩
  · show (operator_inc^[n + 1] (begin handles index db cache)).iter.entry?.isSome = false
    rw [hend]
    rfl
  · apply equals_of_entry?_eq
    rw [hend]
    rfl
  · intro j hj
    have h1 : (operator_dec^[j] (operator_inc^[n] (begin handles index db cache))).iter.entry? =
        (db (handles index)).get? (n - j) := by
      rw [hback j (by omega)]
      rfl
    exact ⟨h1, by rw [h1, hentry _ (by omega)]⟩
  · show (operator_dec^[n + 1] (operator_inc^[n]
      (begin handles index db cache))).iter.entry?.isSome = false
    rw [hfront]
    rfl

/-- Instance of `traversal_forward_and_backward` on the sample store: column family 2
holds three entries, and the third advance from `begin` is invalid. -/
theorem traversal_forward_and_backward_witness :
    1 ≤ (sampleDB (sampleHandles 2)).length ∧
    keysOf (sampleDB (sampleHandles 2)) = [[5], [6], [9]] ∧
    (operator_inc^[(sampleDB (sampleHandles 2)).length]
      (begin sampleHandles 2 sampleDB 0)).valid = false :=
  ⟨by decide, by decide,
    (traversal_forward_and_backward sampleHandles 2 sampleDB 0 (by decide)).2.1⟩

end mira

namespace mira

open rocksdb_iterator

theorem begin_entry? (handles : column_handles) (index : Nat) (db : DB) (cache : Nat) :
    (begin handles index db cache).iter.entry? = (db (handles index)).head? := by
  rw [begin_iter]
  cases db (handles index) <;> rfl

/-- C14: `end` is always an invalid cursor; `begin` is valid exactly when the column
space is non-empty, and is then on its first entry, whose key is the smallest
stored key of a column kept in ascending key order; `begin` compares equal to
`end` exactly when the column space is empty. -/
theorem begin_end_positions (handles : column_handles) (index : Nat) (db : DB)
    (cache : Nat) (hs : Sorted (db (handles index))) :
    (end_ handles index db cache).valid = false ∧
    ((begin handles index db cache).valid = true ↔ db (handles index) ≠ []) ∧
    (begin handles index db cache).iter.entry? = (db (handles index)).head? ∧
    (∀ e, (begin handles index db cache).iter.entry? = some e →
      e ∈ db (handles index) ∧ ∀ e2 ∈ db (handles index), bytesLe e.1 e2.1 = true) ∧
    (∃ b, equals (begin handles index db cache) (end_ handles index db cache) = .ok b ∧
      (b = true ↔ db (handles index) = [])) := by
  have he := begin_entry? handles index db cache
  have hend : (end_ handles index db cache).iter.Valid = false := rfl
  refine ⟨rfl, ?_, he, ?_, ?_⟩
  · simp only [valid, RawIter.Valid, he]
    cases db (handles index) <;> simp
  · intro e hb
    rw [he] at hb
    cases hc : db (handles index) with
    | nil => rw [hc] at hb; cases hb
    | cons x xs =>
      rw [hc] at hb hs
      have hx : x = e := by simpa using hb
      subst hx
      have hs2 : (∀ b ∈ xs, bytesLt x.1 b.1 = true) ∧ Sorted xs := by
        simpa [Sorted] using hs
      refine ⟨List.mem_cons_self _ _, ?_⟩
      intro e2 he2
      rcases List.mem_cons.mp he2 with rfl | hm
      · exact bytesLe_refl _
      · exact bytesLe_of_lt (hs2.1 e2 hm)
  · have hv : (begin handles index db cache).iter.Valid = (db (handles index)).head?.isSome := by
      simp [RawIter.Valid, he]
    refine ⟨!(db (handles index)).head?.isSome, ?_, ?_⟩
    · simp only [equals, hv, hend]
      cases (db (handles index)).head?.isSome <;> rfl
    · cases db (handles index) <;> simp

/-- Instance of `begin_end_positions` on the sample store: column family 1 is sorted
and non-empty, and `begin` is on its first entry. -/
theorem begin_end_positions_witness :
    Sorted (sampleDB (sampleHandles 1)) ∧
    (begin sampleHandles 1 sampleDB 0).iter.entry? = some ([1], [1, 100]) ∧
    (begin sampleHandles 1 sampleDB 0).iter.entry? = (sampleDB (sampleHandles 1)).head? :=
  ⟨by decide, by decide,
    (begin_end_positions sampleHandles 1 sampleDB 0 (by decide)).2.2.1⟩

end mira

namespace mira

open rocksdb_iterator

theorem cursor_object.load_append {heap : IterHeap} {o : cursor_object}
    {cv : rocksdb_iterator} (l : List RawIter) (h : o.load heap = some cv) :
    o.load (heap ++ l) = some cv := by
  have hlt := (cursor_object.load_eq_some h).2.1
  rw [← h]
  apply cursor_object.load_congr
  simp [List.getElem?_append_left hlt]

theorem cursor_object.copy_step_copy (f : RawIter → RawIter) (heap : IterHeap)
    (o : cursor_object) (c : rocksdb_iterator) (hload : o.load heap = some c) :
    ∃ h1 n h2 h3 r, cursor_object.copy heap o = some (h1, n) ∧
      ((h1.get? n.iter_ptr).map fun x => h1.set n.iter_ptr (f x)) = some h2 ∧
      cursor_object.copy h2 n = some (h3, r) ∧
      r.iter_ptr ≠ o.iter_ptr ∧ o.load h3 = some c ∧
      r.load h3 = some (rocksdb_iterator.copy
        { rocksdb_iterator.copy c with iter := f (rocksdb_iterator.copy c).iter }) := by
  obtain ⟨hcopy, hl2, hl1⟩ := cursor_object.copy_spec heap o c hload
  have hlt := (cursor_object.load_eq_some hload).2.1
  have hne : ({ o with iter_ptr := heap.length } : cursor_object).iter_ptr ≠ o.iter_ptr := by
    show heap.length ≠ o.iter_ptr
    omega
  obtain ⟨ha, hb, hc⟩ := cursor_object.step_spec f _ o _ c _ hne hl1 hl2
  obtain ⟨hcopy2, hr, _⟩ := cursor_object.copy_spec _ _ _ hb
  have hlt2 := (cursor_object.load_eq_some hc).2.1
  refine ⟨_, _, _, _, _, hcopy, ha, hcopy2, ?_, cursor_object.load_append _ hc, hr⟩
  show List.length _ ≠ o.iter_ptr
  omega

/-- C15, amended: for a valid cursor whose raw position is over the column space of
its own index (kept in ascending key
order), `operator++(int)` leaves the receiver as it was and returns a cursor
positioned where the pre-incremented copy is, that is on the next entry or
invalid past the last one, and not on the receiver's entry; `operator--(int)`
does the same towards the previous entry.  In memory the returned object owns an
iterator of its own and the receiver denotes the same cursor afterwards. -/
theorem post_step_returns_stepped_copy (c : rocksdb_iterator) (hown : OwnColumn c)
    (hs : Sorted c.iter.entries) (hv : c.valid = true) :
    ((operator_post_inc c).1 = c ∧
      (operator_post_inc c).2.iter.entry? = (copy c).operator_inc.iter.entry? ∧
      (∀ i, c.iter.pos = some i →
        (operator_post_inc c).2.iter.entry? = c.iter.entries.get? (i + 1)) ∧
      (operator_post_inc c).2.iter.entry? ≠ c.iter.entry?) ∧
    ((operator_post_dec c).1 = c ∧
      (operator_post_dec c).2.iter.entry? = (copy c).operator_dec.iter.entry? ∧
      (∀ i, c.iter.pos = some (i + 1) →
        (operator_post_dec c).2.iter.entry? = c.iter.entries.get? i) ∧
      (c.iter.pos = some 0 → (operator_post_dec c).2.valid = false) ∧
      (operator_post_dec c).2.iter.entry? ≠ c.iter.entry?) ∧
    (∀ heap o, cursor_object.load heap o = some c →
      (∃ h2 r, cursor_object.operator_post_inc heap o = some (h2, r) ∧
        r.iter_ptr ≠ o.iter_ptr ∧ o.load h2 = some c ∧
        r.load h2 = some (operator_post_inc c).2) ∧
      (∃ h2 r, cursor_object.operator_post_dec heap o = some (h2, r) ∧
        r.iter_ptr ≠ o.iter_ptr ∧ o.load h2 = some c ∧
        r.load h2 = some (operator_post_dec c).2)) := by
  have hmem : ∀ heap o, cursor_object.load heap o = some c →
      (∃ h2 r, cursor_object.operator_post_inc heap o = some (h2, r) ∧
        r.iter_ptr ≠ o.iter_ptr ∧ o.load h2 = some c ∧
        r.load h2 = some (operator_post_inc c).2) ∧
      (∃ h2 r, cursor_object.operator_post_dec heap o = some (h2, r) ∧
        r.iter_ptr ≠ o.iter_ptr ∧ o.load h2 = some c ∧
        r.load h2 = some (operator_post_dec c).2) := by
    intro heap o hload
    constructor
    · obtain ⟨h1, n, h2, h3, r, e1, e2, e3, hne, ho, hr⟩ :=
        cursor_object.copy_step_copy RawIter.Next heap o c hload
      refine ⟨h3, r, ?_, hne, ho, hr⟩
      simp only [cursor_object.operator_post_inc, cursor_object.operator_inc, e1, e2, e3]
    · obtain ⟨h1, n, h2, h3, r, e1, e2, e3, hne, ho, hr⟩ :=
        cursor_object.copy_step_copy RawIter.Prev heap o c hload
      refine ⟨h3, r, ?_, hne, ho, hr⟩
      simp only [cursor_object.operator_post_dec, cursor_object.operator_dec, e1, e2, e3]
  have hc := copy_of_valid c hown hs hv
  have hsi : Sorted c.operator_inc.iter.entries := by
    simpa [operator_inc, RawIter.entries_Next] using hs
  have hsd : Sorted c.operator_dec.iter.entries := by
    simpa [operator_dec, RawIter.entries_Prev] using hs
  have hi : (operator_post_inc c).2.iter.entry? = c.operator_inc.iter.entry? := by
    simp only [operator_post_inc, hc]
    exact copy_entry? _ (operator_inc_ownColumn c hown) hsi
  have hd : (operator_post_dec c).2.iter.entry? = c.operator_dec.iter.entry? := by
    simp only [operator_post_dec, hc]
    exact copy_entry? _ (operator_dec_ownColumn c hown) hsd
  refine ⟨⟨rfl, by rw [hi, hc], ?_, ?_⟩, ⟨rfl, by rw [hd, hc], ?_, ?_, ?_⟩, hmem⟩
  · intro i hp
    rw [hi]
    exact RawIter.entry?_Next c.iter i hp
  · rw [hi]
    exact entry?_operator_inc_ne c hs hv
  · intro i hp
    rw [hd]
    exact RawIter.entry?_Prev_succ c.iter i hp
  · intro hp
    have h0 : c.operator_dec.iter.entry? = none := RawIter.entry?_Prev_zero c.iter hp
    simp [valid, RawIter.Valid, hd, h0]
  · rw [hd]
    exact entry?_operator_dec_ne c hs hv

/-- Instance of `post_step_returns_stepped_copy` on the sample store: at `[5]`, the
first key of column family 2, `operator++(int)` returns the cursor at `[6]` and
leaves the receiver at `[5]`. -/
theorem post_step_returns_stepped_copy_witness :
    OwnColumn (begin sampleHandles 2 sampleDB 0) ∧
    (begin sampleHandles 2 sampleDB 0).iter.key = [5] ∧
    (operator_post_inc (begin sampleHandles 2 sampleDB 0)).2.iter.key = [6] ∧
    (operator_post_inc (begin sampleHandles 2 sampleDB 0)).1 =
      begin sampleHandles 2 sampleDB 0 :=
  ⟨by decide, by decide, by decide,
    (post_step_returns_stepped_copy (begin sampleHandles 2 sampleDB 0)
      (by decide) (by decide) (by decide)).1.1⟩

end mira

namespace mira

open rocksdb_iterator

/-! ## Move assignment -/

/-- C16: after `a = std::move( b )` the raw position, the snapshot and the store
handle of `a` are those of `b`, while the index, the column handles and the cache
reference of `a` are what they were.  With the moved position valid, `a`
dereferences by its own index: directly from the moved value bytes when that
index is `ID_INDEX`, otherwise through a point lookup of those bytes in the column
space of `ID_INDEX`, whichever column space the position came from. -/
theorem move_assign_keeps_own_index {Key ID Value Handle State : Type}
    (codec : Codec Key ID Value) (ch : Cache ID Value Handle State)
    (a b : rocksdb_iterator) (s : State) (hv : b.valid = true) :
    (move_assign a b).iter = b.iter ∧
    (move_assign a b).snapshot = b.snapshot ∧
    (move_assign a b).db = b.db ∧
    (move_assign a b).index = a.index ∧
    (move_assign a b).handles = a.handles ∧
    (move_assign a b).cache = a.cache ∧
    (a.index = ID_INDEX →
      (operator_star codec ch (move_assign a b) s).ops = [] ∧
      (operator_star codec ch (move_assign a b) s).result =
        resolve codec ch b.iter.value s) ∧
    (a.index ≠ ID_INDEX →
      (operator_star codec ch (move_assign a b) s).ops =
        [StoreOp.get (a.handles ID_INDEX) b.iter.value] ∧
      (operator_star codec ch (move_assign a b) s).result =
        match Get b.db (a.handles ID_INDEX) b.iter.value with
        | none => .error Fault.assert_get_ok
        | some record_bytes => resolve codec ch record_bytes s) := by
  have hv2 : (move_assign a b).valid = true := hv
  exact ⟨rfl, rfl, rfl, rfl, rfl, rfl,
    fun hi => operator_star_direct codec ch (move_assign a b) s hv2 hi,
    fun hi => operator_star_indirect codec ch (move_assign a b) s hv2 hi⟩

/-- Instance of `move_assign_keeps_own_index` on the sample store: a cursor built over
column family 1 takes over the position of a cursor built over column family 2 and
dereferences it directly, without a point lookup. -/
theorem move_assign_keeps_own_index_witness :
    (begin sampleHandles 2 sampleDB 0).valid = true ∧
    (begin sampleHandles 1 sampleDB 0).index = ID_INDEX ∧
    (begin sampleHandles 2 sampleDB 0).index ≠ ID_INDEX ∧
    (move_assign (begin sampleHandles 1 sampleDB 0) (begin sampleHandles 2 sampleDB 0)).iter.key
      = [5] ∧
    (operator_star rawCodec listCache
      (move_assign (begin sampleHandles 1 sampleDB 0) (begin sampleHandles 2 sampleDB 0))
      []).ops = [] :=
  ⟨by decide, by decide, by decide, by decide,
    ((move_assign_keeps_own_index rawCodec listCache (begin sampleHandles 1 sampleDB 0)
      (begin sampleHandles 2 sampleDB 0) [] (by decide)).2.2.2.2.2.2.1 (by decide)).1⟩

/-- C11, as stated, fails on the code: a cursor of index 1 that was move-assigned the
position of a cursor over column family 2 is valid at `[5]`; its copy is opened on
column family 1, where the seek to `[5]` finds no key, so the copy is invalid and
compares unequal to the original. -/
theorem copy_after_move_assign_across_columns :
    (move_assign (begin sampleHandles 1 sampleDB 0) (begin sampleHandles 2 sampleDB 0)).valid
      = true ∧
    (move_assign (begin sampleHandles 1 sampleDB 0)
      (begin sampleHandles 2 sampleDB 0)).iter.key = [5] ∧
    ¬ OwnColumn
      (move_assign (begin sampleHandles 1 sampleDB 0) (begin sampleHandles 2 sampleDB 0)) ∧
    (copy (move_assign (begin sampleHandles 1 sampleDB 0)
      (begin sampleHandles 2 sampleDB 0))).valid = false ∧
    equals
      (copy (move_assign (begin sampleHandles 1 sampleDB 0) (begin sampleHandles 2 sampleDB 0)))
      (move_assign (begin sampleHandles 1 sampleDB 0) (begin sampleHandles 2 sampleDB 0)) =
        .ok false :=
  ⟨by decide, by decide, by decide, by decide, rfl⟩

/-- C15, as stated, fails on the code, on cursors that were move-assigned a position
of another column space.  The cursor of index 1 at `[5]` of column family 2 has the
next entry `[6]`, yet `operator++(int)` returns an invalid cursor: the copy is
opened on column family 1, where the seek to `[5]` finds nothing.  The cursor of
index 2 at `[1]` of column family 1 has the next entry `[2]`, yet `operator++(int)`
returns the cursor at `[6]` of column family 2. -/
theorem post_increment_after_move_assign_across_columns :
    ((move_assign (begin sampleHandles 1 sampleDB 0) (begin sampleHandles 2 sampleDB 0)).valid
        = true ∧
      (move_assign (begin sampleHandles 1 sampleDB 0)
        (begin sampleHandles 2 sampleDB 0)).iter.entry? = some ([5], [2]) ∧
      (move_assign (begin sampleHandles 1 sampleDB 0)
        (begin sampleHandles 2 sampleDB 0)).operator_inc.iter.entry? = some ([6], [1]) ∧
      (operator_post_inc (move_assign (begin sampleHandles 1 sampleDB 0)
        (begin sampleHandles 2 sampleDB 0))).2.valid = false) ∧
    ((move_assign (begin sampleHandles 2 sampleDB 0) (begin sampleHandles 1 sampleDB 0)).valid
        = true ∧
      (move_assign (begin sampleHandles 2 sampleDB 0)
        (begin sampleHandles 1 sampleDB 0)).iter.entry? = some ([1], [1, 100]) ∧
      (move_assign (begin sampleHandles 2 sampleDB 0)
        (begin sampleHandles 1 sampleDB 0)).operator_inc.iter.entry? = some ([2], [2, 200]) ∧
      (operator_post_inc (move_assign (begin sampleHandles 2 sampleDB 0)
        (begin sampleHandles 1 sampleDB 0))).2.iter.entry? = some ([6], [1])) := by
  decide

end mira
